import Mathlib

/-!
Verification of the conversation-orchestration core of the caddy chatbot.

Strings are shallowly embedded as `List Char` so that all operations are
executable and all concrete facts are kernel-decidable.  Each definition is a
direct translation of the corresponding Python function in
`caddy_core/components.py` or `integrations/google_chat/structures.py`; doc
comments name the source symbol.
-/

set_option maxRecDepth 10000

/-- Character strings of the embedded program. -/
abbrev Str := List Char

/-- Python whitespace test used by `str.strip()` (ASCII subset actually
reachable in this code base: space, tab, newline, carriage return, vertical
tab, form feed). -/
def pyIsSpace (c : Char) : Bool :=
  c = ' ' || c = '\t' || c = '\n' || c = '\r' || c = '\x0b' || c = '\x0c'

/-- Python `str.strip()`: drop leading and trailing whitespace. -/
def pyStrip (s : Str) : Str :=
  ((s.dropWhile pyIsSpace).reverse.dropWhile pyIsSpace).reverse

/-- Python `str.find(pat)`: index of the leftmost occurrence of `pat`,
`none` when `pat` does not occur (Python returns `-1`). -/
def findSub (pat : Str) : Str → Option Nat
  | [] => if pat.isPrefixOf ([] : Str) then some 0 else none
  | c :: t =>
    if pat.isPrefixOf (c :: t) then some 0
    else (findSub pat t).map (· + 1)

/-- `pat` occurs in `s` starting at index `i`. -/
abbrev occursAt (pat s : Str) (i : Nat) : Prop :=
  pat.isPrefixOf (s.drop i) = true

/-- `i` is the index of the first occurrence of `pat` in `s`. -/
abbrev isFirstOccurrence (pat s : Str) (i : Nat) : Prop :=
  occursAt pat s i ∧ ∀ j, j < i → ¬ occursAt pat s j

/-- The literal "Adviser: " marker scanned for by the truncation heuristic. -/
def adviserTag : Str := "Adviser: ".toList

/-- The literal "Advisor: " marker scanned for by the truncation heuristic. -/
def advisorTag : Str := "Advisor: ".toList

/-- `components.remove_role_played_responses` (components.py lines 102-120):
look for the literal `"Adviser: "`; if found return `(True, text before it,
stripped)`; else look for `"Advisor: "`; if found return `(True, text before
it, stripped)`; else return `(False, whole text stripped)`. -/
def remove_role_played_responses (response : Str) : Bool × Str :=
  match findSub adviserTag response with
  | some i => (true, pyStrip (response.take i))
  | none =>
    match findSub advisorTag response with
    | some i => (true, pyStrip (response.take i))
    | none => (false, pyStrip response)

/-! ### The answer-stream aggregator (components.py, `send_to_llm` lines 383-446)

Fragments (`chunk` values) are finite maps from field names to values that are
either strings or opaque non-string data.  Python dictionaries are embedded as
association lists with first-occurrence lookup and replace-first-or-append
update, which is extensionally the same map. -/

/-- A value in a streamed fragment: a string delta or an opaque non-string
value (tagged by a natural number so distinct values can be told apart). -/
inductive StreamVal where
  | str (s : Str)
  | other (n : Nat)
deriving DecidableEq

/-- One streamed fragment: named output fields with values, in field order. -/
abbrev Chunk := List (Str × StreamVal)

/-- Association-list lookup (Python `d[k]` / `k in d`). -/
def alook {α : Type} : List (Str × α) → Str → Option α
  | [], _ => none
  | (k0, v0) :: t, k => if k0 = k then some v0 else alook t k

/-- Association-list update (Python `d[k] = v`): replace the first binding of
`k`, or append a new binding. -/
def aset {α : Type} : List (Str × α) → Str → α → List (Str × α)
  | [], k, v => [(k, v)]
  | (k0, v0) :: t, k, v =>
    if k0 = k then (k0, v) :: t else (k0, v0) :: aset t k v

/-- The `"answer"` output field. -/
def answerKey : Str := "answer".toList

/-- Merge one `(key, value)` pair of a fragment into the accumulated response
(the body of the `for key, value in chunk.items()` loop, lines 394-402): if
the key is present and both old and new values are strings, concatenate,
otherwise overwrite with the new value. -/
def mergePair (resp : List (Str × StreamVal)) (p : Str × StreamVal) :
    List (Str × StreamVal) :=
  match alook resp p.1, p.2 with
  | some (StreamVal.str a), StreamVal.str b =>
    aset resp p.1 (StreamVal.str (a ++ b))
  | _, _ => aset resp p.1 p.2

/-- Merge a whole fragment into the accumulated response. -/
def mergeChunk (resp : List (Str × StreamVal)) (c : Chunk) :
    List (Str × StreamVal) :=
  c.foldl mergePair resp

/-- The per-field merge rule as the specification states it: string values
concatenate onto a string accumulator, everything else overwrites. -/
def mergeFieldSpec (cur : Option StreamVal) (v : StreamVal) : StreamVal :=
  match cur, v with
  | some (StreamVal.str a), StreamVal.str b => StreamVal.str (a ++ b)
  | _, _ => v

/-- Left fold of the per-field merge rule over the values that arrived for one
field. -/
def specFold : Option StreamVal → List StreamVal → Option StreamVal
  | cur, [] => cur
  | cur, v :: vs => specFold (some (mergeFieldSpec cur v)) vs

/-- The values arriving for field `k` inside one fragment, in order. -/
def arrivalsIn (k : Str) (c : Chunk) : List StreamVal :=
  (c.filter fun p => decide (p.1 = k)).map Prod.snd

/-- The values arriving for field `k` across a fragment sequence, in order. -/
def arrivalsOf (k : Str) (frags : List Chunk) : List StreamVal :=
  (frags.map (arrivalsIn k)).flatten

/-- One interim flush to the supervisor view: `span` is the flush-buffer
content that triggered it, `emitted` the (possibly truncated) answer text
sent, `early` the early-termination flag returned by the truncation scan. -/
structure Flush where
  span : Str
  emitted : Str
  early : Bool
deriving DecidableEq

/-- State of the streaming loop of `send_to_llm` (lines 383-446): the
accumulated response map (`caddy_response`), the flush buffer
(`accumulated_answer`), whether the first answer fragment has been seen
(`first_chunk` consumed), the content of the initial supervisor post, the
interim flushes emitted so far, the early-termination flag, and whether a
Python `TypeError` would have been raised (a non-string `chunk["answer"]`
added to the string buffer). -/
structure SState where
  resp : List (Str × StreamVal)
  buffer : Str
  started : Bool
  initialPost : Option Str
  flushes : List Flush
  earlyStop : Bool
  crashed : Bool
deriving DecidableEq

/-- The streaming loop's initial state (`caddy_response = {}`,
`accumulated_answer = ""`, `first_chunk = True`). -/
def initS : SState := ⟨[], [], false, none, [], false, false⟩

/-- The accumulated `"answer"` field, when present and a string. -/
def getAnswerStr (resp : List (Str × StreamVal)) : Option Str :=
  match alook resp answerKey with
  | some (StreamVal.str s) => some s
  | _ => none

/-- Processing of one fragment (loop body, lines 394-445): merge the fragment
field-by-field; if it carries an `"answer"` field, on the first such fragment
post the initial supervisor card, extend the flush buffer, and once the
buffer holds at least 75 characters run the role-play truncation scan over
the accumulated answer, emit an interim supervisor update, reset the buffer,
and record the early-termination flag. -/
def stepChunk (st : SState) (c : Chunk) : SState :=
  let resp1 := mergeChunk st.resp c
  match alook c answerKey with
  | none => { st with resp := resp1 }
  | some (StreamVal.other _) => { st with resp := resp1, crashed := true }
  | some (StreamVal.str s) =>
    let post := if st.started then st.initialPost else getAnswerStr resp1
    let buf1 := st.buffer ++ s
    if 75 ≤ buf1.length then
      match getAnswerStr resp1 with
      | some cur =>
        let pr := remove_role_played_responses cur
        { resp := aset resp1 answerKey (StreamVal.str pr.2)
          buffer := []
          started := true
          initialPost := post
          flushes := st.flushes ++ [⟨buf1, pr.2, pr.1⟩]
          earlyStop := pr.1
          crashed := st.crashed }
      | none =>
        { st with resp := resp1, started := true, initialPost := post,
                  crashed := true }
    else
      { st with resp := resp1, buffer := buf1, started := true,
                initialPost := post }

/-- The streaming loop over a fragment sequence; consumption stops at the
first early termination (the `break` on line 445) or crash. -/
def runStream : SState → List Chunk → SState
  | st, [] => st
  | st, c :: cs =>
    if st.earlyStop || st.crashed then st
    else runStream (stepChunk st c) cs

/-- A fragment is well formed when every value it carries for the `"answer"`
field is a string (a non-string would raise a `TypeError` on
`accumulated_answer += chunk["answer"]`). -/
def wfChunk (c : Chunk) : Bool :=
  c.all fun p =>
    if p.1 = answerKey then
      match p.2 with
      | StreamVal.str _ => true
      | StreamVal.other _ => false
    else true

/-- The answer text carried by one fragment (empty when absent). -/
def answerTextOf (c : Chunk) : Str :=
  match alook c answerKey with
  | some (StreamVal.str s) => s
  | _ => []

/-- Concatenation of the answer text of a fragment sequence. -/
def concatAnswers (cs : List Chunk) : Str :=
  (cs.map answerTextOf).flatten

/-- The accumulated answer string after the streaming loop (the value of
`caddy_response["answer"]` at line 472). -/
def aggregateAnswer (frags : List Chunk) : Option Str :=
  getAnswerStr (runStream initS frags).resp

/-- The finalized answer: line 472 applies the role-play truncation scan once
more to the accumulated answer and stores the result. -/
def finalAnswer (frags : List Chunk) : Option Str :=
  (aggregateAnswer frags).map fun a => (remove_role_played_responses a).2

/-- Concatenation of the flushed buffer spans of a stream state. -/
def spansJoin (st : SState) : Str :=
  (st.flushes.map Flush.span).flatten

/-- The cumulative field merge of a whole fragment sequence (the
`for key, value in chunk.items()` merging of lines 394-402, ignoring the
flush bookkeeping, starting from `caddy_response = {}`). -/
def mergeChunks (frags : List Chunk) : List (Str × StreamVal) :=
  frags.foldl mergeChunk []

/-- Concrete accumulated answer exercising both role-play markers. -/
def c1acc : Str := "Hello there. Advisor: x Adviser: y".toList

/-- A one-fragment stream whose accumulated answer is `c1acc` (34 characters,
so no interim flush fires). -/
def c1frags : List Chunk := [[(answerKey, StreamVal.str c1acc)]]

/-- A concrete marker-free two-fragment stream (55 + 48 characters) whose
single flush fires on the second fragment. -/
def c3frags : List Chunk :=
  [[(answerKey, StreamVal.str
      ("Universal Credit is a benefit for people of working age".toList))],
   [(answerKey, StreamVal.str
      (" who are on a low income or out of work entirely".toList))]]

/-- Concrete input with one `"Adviser: "` marker at index 2. -/
def c10s : Str := "a Adviser: b".toList

/-! ### The bounded-retry loop (components.py, `send_to_llm` lines 383-470) -/

/-- Outcome of one end-to-end streaming attempt: either the stream completes
with a final answer or the underlying stream raises. -/
inductive GenOutcome where
  | done (a : Str)
  | raised
deriving DecidableEq

/-- Observable side effects of the retry loop: the backoff waits (recorded as
`(one-based index of the next attempt, duration i*i)` for the failed 0-based
attempt `i`), the "retrying" notices shown to the user, and the terminal
failure notices shown on the user-facing and supervisor-facing surfaces. -/
structure RetrySt where
  waits : List (Nat × Nat)
  retryNotices : Nat
  userFailNotices : Nat
  supFailNotices : Nat
deriving DecidableEq

/-- Result of the whole retry loop: a final answer, or the fatal
`Exception` raised after the last attempt (line 461). -/
inductive RetryOutcome where
  | answer (a : Str)
  | fatal
deriving DecidableEq

/-- The `for attempt in range(4)` retry skeleton (lines 383-470), with each
attempt's streaming body abstracted to its outcome `f i`: success breaks out
of the loop; a failure on attempt 3 (0-based) updates both surfaces with a
terminal failure notice and raises; an earlier failure shows a retry notice,
sleeps `attempt ** 2` time units, and proceeds to the next attempt.  `fuel`
is the number of attempts remaining (4 at entry), making the recursion
structural. -/
def retryLoop (f : Nat → GenOutcome) :
    Nat → Nat → RetrySt → RetryOutcome × RetrySt
  | 0, _, st => (RetryOutcome.fatal, st)
  | fuel + 1, i, st =>
    match f i with
    | GenOutcome.done a => (RetryOutcome.answer a, st)
    | GenOutcome.raised =>
      if i = 3 then
        (RetryOutcome.fatal,
          { st with userFailNotices := st.userFailNotices + 1,
                    supFailNotices := st.supFailNotices + 1 })
      else
        retryLoop f fuel (i + 1)
          { st with retryNotices := st.retryNotices + 1,
                    waits := st.waits ++ [(i + 2, i * i)] }

/-- Entry point of the retry loop: 4 attempts, starting at attempt 0 with no
effects recorded. -/
def send_llm_retry (f : Nat → GenOutcome) : RetryOutcome × RetrySt :=
  retryLoop f 4 0 ⟨[], 0, 0, 0⟩

/-- A stream factory failing attempts 1-3 and succeeding on attempt 4. -/
def retryF0 : Nat → GenOutcome := fun i =>
  if i < 3 then GenOutcome.raised else GenOutcome.done ("done".toList)

/-- A stream factory failing every attempt. -/
def retryG0 : Nat → GenOutcome := fun _ => GenOutcome.raised

/-! ### The evaluation gate and call lifecycle (components.py lines 51-99,
158-177, 244-335)

DynamoDB tables are embedded as association lists keyed by user email
(`users_table`) and thread id (`evaluation_table`); `message_table` is the
list of stored messages.  The external collaborators `execute_optional_modules`
(evaluation service) and `datetime.now` are passed in as parameters. -/

/-- One value inside the parsed `moduleOutputs` JSON object: a JSON object
carrying a (possibly absent, hence boolean) truthy `end_interaction` flag, or
any non-object value. -/
inductive OutVal where
  | dict (endInteraction : Bool)
  | plain (n : Nat)
deriving DecidableEq

/-- The module configuration dictionary produced by
`execute_optional_modules` and threaded through `check_existing_call`
(`modulesUsed` is opaque to the orchestration and embedded as a tag). -/
structure ModValues where
  modulesUsed : Nat
  moduleOutputs : List (Str × OutVal)
  continueConversation : Bool
  controlGroupMessage : Str
deriving DecidableEq

/-- A `users_table` item: the per-user session record written by
`store_evaluation_module` and `mark_call_complete`. -/
structure UserRec where
  activeCall : Bool
  activeThreadId : Str
  callStart : Str
  modulesUsed : Nat
  moduleOutputs : List (Str × OutVal)
  continueConversation : Bool
  controlGroupMessage : Str
deriving DecidableEq

/-- An `evaluation_table` item keyed by thread id.  The `owner` field is
verification instrumentation only: it records the user whose message created
the record (the DynamoDB item has no such attribute and no code path reads
it); it lets the theorems speak about the records attached to one user's
calls.  `surveyResponse` is `some` exactly when the item carries the
`surveyResponse` attribute appended by `handle_survey_response`. -/
structure EvalRec where
  owner : Str
  callStart : Str
  modulesUsed : Nat
  moduleOutputs : List (Str × OutVal)
  continueConversation : Bool
  controlGroupMessage : Str
  callComplete : Bool
  surveyResponse : Option (List (Str × Str))
deriving DecidableEq

/-- A `message_table` item (the fields stored by `store_message`). -/
structure MsgRec where
  messageId : Str
  conversationId : Str
  threadId : Str
  userEmail : Str
  message : Str
deriving DecidableEq

/-- The persistent state touched by the evaluation gate: users, evaluation
records and stored messages. -/
structure CaddyDB where
  users : List (Str × UserRec)
  evals : List (Str × EvalRec)
  messages : List MsgRec
deriving DecidableEq

/-- An inbound `ProcessChatMessageEvent` (the fields the gate reads). -/
structure CaddyMessage where
  user : Str
  thread_id : Str
  space_id : Str
  message_id : Str
  message : Str
deriving DecidableEq

/-- `components.store_evaluation_module` (lines 244-277): put a fresh
evaluation item for the thread (`callComplete = False`, no survey response)
and update the user item to an active call on this thread, caching the
module configuration. -/
def store_evaluation_module (db : CaddyDB) (user thread_id : Str)
    (module_values : ModValues) (call_start_time : Str) : CaddyDB :=
  { db with
    evals := aset db.evals thread_id
      { owner := user
        callStart := call_start_time
        modulesUsed := module_values.modulesUsed
        moduleOutputs := module_values.moduleOutputs
        continueConversation := module_values.continueConversation
        controlGroupMessage := module_values.controlGroupMessage
        callComplete := false
        surveyResponse := none }
    users := aset db.users user
      { activeCall := true
        activeThreadId := thread_id
        callStart := call_start_time
        modulesUsed := module_values.modulesUsed
        moduleOutputs := module_values.moduleOutputs
        continueConversation := module_values.continueConversation
        controlGroupMessage := module_values.controlGroupMessage } }

/-- Result of `check_existing_call`: the resolved module configuration, the
survey-complete flag, and the (possibly updated) store state. -/
structure CECResult where
  mv : ModValues
  survey : Bool
  db : CaddyDB
deriving DecidableEq

/-- The module configuration cached on a user record. -/
def mvOfUser (ur : UserRec) : ModValues :=
  { modulesUsed := ur.modulesUsed
    moduleOutputs := ur.moduleOutputs
    continueConversation := ur.continueConversation
    controlGroupMessage := ur.controlGroupMessage }

/-- The module configuration stored on an evaluation record. -/
def mvOfEval (er : EvalRec) : ModValues :=
  { modulesUsed := er.modulesUsed
    moduleOutputs := er.moduleOutputs
    continueConversation := er.continueConversation
    controlGroupMessage := er.controlGroupMessage }

/-- `components.check_existing_call` (lines 280-335).  If the sender has a
user item with `activeCall` true: query the evaluation item for the
message's thread; when found, return its configuration together with
`survey_complete = ("surveyResponse" in item)`; when absent, re-read the user
item and return the configuration cached there with
`survey_complete = False` (no new record is created).  Otherwise run the
evaluation modules (`fresh`, an external collaborator's output) and open a
new call via `store_evaluation_module`. -/
def check_existing_call (db : CaddyDB) (m : CaddyMessage) (fresh : ModValues)
    (call_start_time : Str) : CECResult :=
  match alook db.users m.user with
  | some ur =>
    if ur.activeCall then
      match alook db.evals m.thread_id with
      | some er => ⟨mvOfEval er, er.surveyResponse.isSome, db⟩
      | none => ⟨mvOfUser ur, false, db⟩
    else
      ⟨fresh, false, store_evaluation_module db m.user m.thread_id fresh
        call_start_time⟩
  | none =>
    ⟨fresh, false, store_evaluation_module db m.user m.thread_id fresh
      call_start_time⟩

/-- `components.format_chat_message` (lines 180-201), restricted to the
stored fields. -/
def format_chat_message (m : CaddyMessage) : MsgRec :=
  { messageId := m.message_id
    conversationId := m.space_id
    threadId := m.thread_id
    userEmail := m.user
    message := m.message }

/-- The short-circuit decision taken by `handle_message`. -/
inductive Decision where
  | surveyComplete
  | controlGroup
  | endInteraction
  | proceed
deriving DecidableEq

/-- User-visible side effects of `handle_message` (chat-client calls, in
order; answer generation is recorded as the `invokeLlm` effect standing for
the `send_to_llm` call). -/
inductive UEffect where
  | notifySurveyDone (space msgId : Str)
  | notifyControlGroup (space msgId : Str) (controlGroupMessage : Str)
  | callCompleteConfirmation (user space thread : Str)
  | notifyComposing (space msgId : Str)
  | invokeLlm (thread : Str)
deriving DecidableEq

/-- Result of `handle_message`: the decision taken, the updated store, and
the chat effects in emission order. -/
structure HMResult where
  decision : Decision
  db : CaddyDB
  effects : List UEffect
deriving DecidableEq

/-- True when some configured module's output payload signals
`end_interaction` (the `for output in module_outputs_json.values()` loop,
lines 88-90). -/
def anyEndInteraction (outs : List (Str × OutVal)) : Bool :=
  outs.any fun p =>
    match p.2 with
    | OutVal.dict b => b
    | OutVal.plain _ => false

/-- `components.handle_message` (lines 51-99): resolve the call via
`check_existing_call`; if the survey is already complete, notify the user
and stop (nothing stored, no answer).  Otherwise store the message; if
`continueConversation` is false, show the control-group explanation and the
call-completion confirmation and stop; if any module output signals
`end_interaction`, stop silently; otherwise show the composing notice and
send the query to the LLM. -/
def handle_message (db : CaddyDB) (m : CaddyMessage) (fresh : ModValues)
    (call_start_time : Str) : HMResult :=
  let c := check_existing_call db m fresh call_start_time
  if c.survey then
    ⟨Decision.surveyComplete, c.db,
      [UEffect.notifySurveyDone m.space_id m.message_id]⟩
  else
    let db2 := { c.db with
      messages := c.db.messages ++ [format_chat_message m] }
    if c.mv.continueConversation = false then
      ⟨Decision.controlGroup, db2,
        [UEffect.notifyControlGroup m.space_id m.message_id
            c.mv.controlGroupMessage,
          UEffect.callCompleteConfirmation m.user m.space_id m.thread_id]⟩
    else if anyEndInteraction c.mv.moduleOutputs then
      ⟨Decision.endInteraction, db2, []⟩
    else
      ⟨Decision.proceed, db2,
        [UEffect.notifyComposing m.space_id m.message_id,
          UEffect.invokeLlm m.thread_id]⟩

/-- `components.mark_call_complete` (lines 158-177): set
`callComplete = True` on the thread's evaluation item and
`activeCall = False` on the user item.  DynamoDB `update_item` creates the
item when the key is absent, so an absent key yields a default item carrying
only the written attribute (defaults for the rest; such a phantom evaluation
item has no `owner`, recorded as the empty string). -/
def mark_call_complete (db : CaddyDB) (user thread_id : Str) : CaddyDB :=
  { db with
    evals :=
      match alook db.evals thread_id with
      | some er => aset db.evals thread_id { er with callComplete := true }
      | none => aset db.evals thread_id
          { owner := []
            callStart := []
            modulesUsed := 0
            moduleOutputs := []
            continueConversation := true
            controlGroupMessage := []
            callComplete := true
            surveyResponse := none }
    users :=
      match alook db.users user with
      | some ur => aset db.users user { ur with activeCall := false }
      | none => aset db.users user
          { activeCall := false
            activeThreadId := []
            callStart := []
            modulesUsed := 0
            moduleOutputs := []
            continueConversation := true
            controlGroupMessage := [] } }

/-- User record with an active call on thread `"t1"`. -/
def c4ur : UserRec := ⟨true, "t1".toList, "cs".toList, 0, [], true, []⟩

/-- Evaluation record for thread `"t1"` owned by `"u"`, call complete, with
one survey response recorded. -/
def c4er : EvalRec :=
  ⟨"u".toList, "cs".toList, 0, [], true, [], true,
    some [("q".toList, "r".toList)]⟩

/-- Store with an active call for `"u"` and a surveyed record on `"t1"`. -/
def c4db : CaddyDB := ⟨[("u".toList, c4ur)], [("t1".toList, c4er)], []⟩

/-- An inbound message from `"u"` on thread `"t1"`. -/
def c4m : CaddyMessage :=
  ⟨"u".toList, "t1".toList, "sp".toList, "m1".toList, "hi".toList⟩

/-- A fresh module configuration with `continueConversation = true`. -/
def c4fresh : ModValues := ⟨1, [], true, []⟩

/-- User record for `"u"` with `activeCall = false` (the state every user is
in once a call has been marked complete, which is when surveys happen). -/
def c4xur : UserRec := ⟨false, "t1".toList, "cs".toList, 0, [], true, []⟩

/-- Store where thread `"t1"` carries a survey response but the sender has no
active call. -/
def c4xdb : CaddyDB := ⟨[("u".toList, c4xur)], [("t1".toList, c4er)], []⟩

/-- Fresh module configuration whose single module output signals
`end_interaction`. -/
def c8fresh : ModValues := ⟨1, [("mod".toList, OutVal.dict true)], true, []⟩

/-- The empty store. -/
def emptyDB : CaddyDB := ⟨[], [], []⟩

/-- A message from `"u"` on thread `"t9"`, which has no evaluation record. -/
def c9m : CaddyMessage :=
  ⟨"u".toList, "t9".toList, "sp".toList, "m9".toList, "hi".toList⟩

/-- User record with an active call on `"t1"` (not `"t9"`). -/
def c9ur : UserRec := ⟨true, "t1".toList, "cs".toList, 2, [], true, []⟩

/-- Store with an active call for `"u"` and no record for thread `"t9"`. -/
def c9db : CaddyDB := ⟨[("u".toList, c9ur)], [], []⟩

/-- One event of the call lifecycle: an inbound message (processed by
`handle_message`, with the external module execution's output and timestamp
as parameters) or a user-triggered call completion
(`finalise_caddy_call` → `mark_call_complete`, whose thread id comes from the
clicked card and is therefore an arbitrary event parameter). -/
inductive CallOp where
  | message (m : CaddyMessage) (fresh : ModValues) (call_start_time : Str)
  | complete (user thread_id : Str)
deriving DecidableEq

/-- Effect of one lifecycle event on the store. -/
def stepOp (db : CaddyDB) : CallOp → CaddyDB
  | CallOp.message m fresh cst => (handle_message db m fresh cst).db
  | CallOp.complete u t => mark_call_complete db u t

/-- Effect of a sequence of lifecycle events on the store. -/
def runOps (db : CaddyDB) (ops : List CallOp) : CaddyDB :=
  ops.foldl stepOp db

/-- A completion event is well targeted when, if its user currently has an
active call, it completes that call's thread (completing a stale thread from
an old card is what this excludes). -/
def okOp (db : CaddyDB) : CallOp → Bool
  | CallOp.message _ _ _ => true
  | CallOp.complete u t =>
    match alook db.users u with
    | some ur => if ur.activeCall then decide (ur.activeThreadId = t) else true
    | none => true

/-- All completion events of the sequence are well targeted at their
execution point. -/
def validOps : CaddyDB → List CallOp → Bool
  | _, [] => true
  | db, op :: rest => okOp db op && validOps (stepOp db op) rest

/-- Store invariant: every incomplete evaluation record belongs to a user
whose session is active exactly on that thread. -/
def InvDB (db : CaddyDB) : Prop :=
  ∀ t er, alook db.evals t = some er → er.callComplete = false →
    ∃ ur, alook db.users er.owner = some ur ∧ ur.activeCall = true ∧
      ur.activeThreadId = t

/-- At most one thread carries an incomplete evaluation record created by
user `u`. -/
def atMostOneActive (db : CaddyDB) (u : Str) : Prop :=
  ∀ t1 t2 er1 er2, alook db.evals t1 = some er1 →
    alook db.evals t2 = some er2 → er1.owner = u → er2.owner = u →
    er1.callComplete = false → er2.callComplete = false → t1 = t2

/-- The number of threads carrying an incomplete evaluation record created
by user `u`. -/
def ownedIncompleteCount (db : CaddyDB) (u : Str) : Nat :=
  ((db.evals.map Prod.fst).dedup.filter fun t =>
    match alook db.evals t with
    | some er => decide (er.owner = u) && !er.callComplete
    | none => false).length

/-- A message from `"u"` on thread `"tA"`. -/
def c5mA : CaddyMessage :=
  ⟨"u".toList, "tA".toList, "sp".toList, "mA".toList, "hi".toList⟩

/-- A message from `"u"` on thread `"tB"`. -/
def c5mB : CaddyMessage :=
  ⟨"u".toList, "tB".toList, "sp".toList, "mB".toList, "hi".toList⟩

/-- A message from `"u"` on thread `"tC"`. -/
def c5mC : CaddyMessage :=
  ⟨"u".toList, "tC".toList, "sp".toList, "mC".toList, "hi".toList⟩

/-- A well-targeted event sequence: open a call on `"tA"`, complete it on
`"tA"`, open a new call on `"tB"`. -/
def c5wops : List CallOp :=
  [CallOp.message c5mA c4fresh [], CallOp.complete ("u".toList) ("tA".toList),
    CallOp.message c5mB c4fresh []]

/-- The stale-card sequence: open a call on `"tA"`, complete it, open a call
on `"tB"`, complete `"tA"` again from the old card (deactivating the session
while `"tB"` stays incomplete), then open a third call on `"tC"`. -/
def c5xops : List CallOp :=
  [CallOp.message c5mA c4fresh [], CallOp.complete ("u".toList) ("tA".toList),
    CallOp.message c5mB c4fresh [], CallOp.complete ("u".toList) ("tA".toList),
    CallOp.message c5mC c4fresh []]

/-! ### The supervisor approval flow (structures.py lines 740-798, 1184-1192;
components.py lines 549-562)

Chat cards are embedded as lists of sections; the section payloads coming
from the platform are opaque.  The widgets produced by the `responses`
module are not part of this repository's sources, so their content is
modelled from the specification. -/

/-- One section of a chat card.  `content` is an opaque section of the
rendered answer or request card.  Modelled from the spec:
`responses.approval_json_widget` (resp. `rejection_json_widget`), whose
source module is not in the repository, is an "approved" (resp. "rejected")
marker section naming the approver (and, for rejection, carrying the
supervisor's feedback text). -/
inductive CardSection where
  | content (tag : Nat)
  | approvalWidget (approver : Str)
  | rejectionWidget (approver : Str) (message : Str)
deriving DecidableEq

/-- A chat card: its sections in order. -/
abbrev ChatCard := List CardSection

/-- `structures.create_approved_card` (lines 740-745): append the approval
marker naming the approver to the card's sections. -/
def create_approved_card (card : ChatCard) (approver : Str) : ChatCard :=
  card ++ [CardSection.approvalWidget approver]

/-- `structures.create_updated_supervision_card` (lines 857-877): pop the
trailing thumbs-up/thumbs-down section off the supervision card and append
the approval or rejection marker. -/
def create_updated_supervision_card (supervision_card : ChatCard)
    (approver : Str) (approved : Bool) (supervisor_message : Str) : ChatCard :=
  supervision_card.dropLast ++
    [if approved then CardSection.approvalWidget approver
      else CardSection.rejectionWidget approver supervisor_message]

/-- `caddy_core.models.ApprovalEvent` as built by `received_approval`. -/
structure ApprovalEvent where
  response_id : Str
  thread_id : Str
  approver_email : Str
  approved : Bool
  approval_timestamp : Str
  user_response_timestamp : Str
  supervisor_message : Option Str
deriving DecidableEq

/-- The fields `received_approval` reads from the Google Chat click event
and its card parameters. -/
structure ChatApprovalInput where
  aiResponse : ChatCard
  conversationId : Str
  approver : Str
  responseId : Str
  threadId : Str
  supervisorSpace : Str
  messageName : Str
  supervisorCard : ChatCard
  userMessageId : Str
  newRequestId : Str
  requestApproved : ChatCard
  userEmail : Str
  eventTime : Str
deriving DecidableEq

/-- Chat-surface effects of the approval flow, in emission order. -/
inductive ChatEffect where
  | updateSupervisor (space msgId : Str) (card : ChatCard)
  | updateAdviserDynamic (space msgId : Str) (card : ChatCard)
  | callCompleteConfirmation (user space thread : Str)
deriving DecidableEq

/-- A `responses_table` item restricted to the approval fields written by
`store_approver_event` (each `some` once written). -/
structure RespRec where
  approverEmail : Option Str
  approved : Option Bool
  approvalTimestamp : Option Str
  userResponseTimestamp : Option Str
  supervisorMessage : Option (Option Str)
deriving DecidableEq

/-- `components.store_approver_event` (lines 549-562): update the responses
item keyed by the event's thread id, setting the five approval fields
(DynamoDB `update_item` creates the item when absent). -/
def store_approver_event (db : List (Str × RespRec)) (ev : ApprovalEvent) :
    List (Str × RespRec) :=
  let base : RespRec :=
    match alook db ev.thread_id with
    | some r => r
    | none => ⟨none, none, none, none, none⟩
  aset db ev.thread_id
    { base with
      approverEmail := some ev.approver_email
      approved := some ev.approved
      approvalTimestamp := some ev.approval_timestamp
      userResponseTimestamp := some ev.user_response_timestamp
      supervisorMessage := some ev.supervisor_message }

/-- `structures.received_approval` (lines 747-798): decorate the AI response
card with the approval marker, update the supervision card (swap the
decision buttons for the approval marker) and the request card in the
supervisor space, deliver the approved card to the end-user surface, and
build the `ApprovalEvent` with `approved = True`, the event time as approval
timestamp, the current time (`now`) as user response timestamp and no
supervisor message.  Returns the routing tuple and the emitted effects. -/
def received_approval (e : ChatApprovalInput) (now : Str) :
    (Str × Str × Str × ApprovalEvent) × List ChatEffect :=
  let approved_card := create_approved_card e.aiResponse e.approver
  let updated_supervision_card :=
    create_updated_supervision_card e.supervisorCard e.approver true []
  ( (e.userEmail, e.conversationId, e.threadId,
      ⟨e.responseId, e.threadId, e.approver, true, e.eventTime, now, none⟩),
    [ ChatEffect.updateSupervisor e.supervisorSpace e.messageName
        updated_supervision_card,
      ChatEffect.updateSupervisor e.supervisorSpace e.newRequestId
        e.requestApproved,
      ChatEffect.updateAdviserDynamic e.conversationId e.userMessageId
        approved_card ] )

/-- `structures.handle_supervisor_approval` (lines 1184-1192): run
`received_approval`, store the approval event on the answer record, then
unconditionally offer call completion to the end user. -/
def handle_supervisor_approval (e : ChatApprovalInput) (now : Str)
    (db : List (Str × RespRec)) : List ChatEffect × List (Str × RespRec) :=
  let r := received_approval e now
  ( r.2 ++ [ChatEffect.callCompleteConfirmation r.1.1 r.1.2.1 r.1.2.2.1],
    store_approver_event db r.1.2.2.2 )

theorem findSub_some_occurs (pat : Str) :
    ∀ (s : Str) (i : Nat), findSub pat s = some i → occursAt pat s i := by
  intro s
  induction s with
  | nil =>
    intro i h
    unfold findSub at h
    split at h
    · rename_i hp
      cases h
      simpa [occursAt] using hp
    · cases h
  | cons c t ih =>
    intro i h
    unfold findSub at h
    split at h
    · rename_i hp
      cases h
      simpa [occursAt] using hp
    · rcases Option.map_eq_some'.mp h with ⟨j, hj, hji⟩
      subst hji
      have := ih j hj
      simpa [occursAt, List.drop_succ_cons] using this

theorem findSub_some_least (pat : Str) :
    ∀ (s : Str) (i : Nat), findSub pat s = some i →
      ∀ j, j < i → ¬ occursAt pat s j := by
  intro s
  induction s with
  | nil =>
    intro i h j hj
    unfold findSub at h
    split at h
    · cases h; omega
    · cases h
  | cons c t ih =>
    intro i h j hj
    unfold findSub at h
    split at h
    · cases h; omega
    · rename_i hp
      rcases Option.map_eq_some'.mp h with ⟨k, hk, hki⟩
      subst hki
      cases j with
      | zero =>
        simpa [occursAt] using hp
      | succ j' =>
        have := ih k hk j' (by omega)
        simpa [occursAt, List.drop_succ_cons] using this

theorem findSub_none_no_occ (pat : Str) :
    ∀ (s : Str), findSub pat s = none → ∀ j, ¬ occursAt pat s j := by
  intro s
  induction s with
  | nil =>
    intro h j
    unfold findSub at h
    split at h
    · cases h
    · rename_i hp
      simpa [occursAt, List.drop_nil] using hp
  | cons c t ih =>
    intro h j
    unfold findSub at h
    split at h
    · cases h
    · rename_i hp
      have hnone : findSub pat t = none := Option.map_eq_none'.mp h
      cases j with
      | zero => simpa [occursAt] using hp
      | succ j' =>
        have := ih hnone j'
        simpa [occursAt, List.drop_succ_cons] using this

/-- If `pat` occurs somewhere in `s` then `findSub` succeeds. -/
theorem findSub_occurs_some (pat s : Str) (i : Nat) (h : occursAt pat s i) :
    ∃ j, findSub pat s = some j := by
  cases hf : findSub pat s with
  | none => exact absurd h (findSub_none_no_occ pat s hf i)
  | some j => exact ⟨j, rfl⟩

/-- `findSub` computes exactly the first-occurrence index. -/
theorem findSub_eq_first (pat s : Str) (i : Nat) (h : isFirstOccurrence pat s i) :
    findSub pat s = some i := by
  rcases findSub_occurs_some pat s i h.1 with ⟨j, hj⟩
  have hocc := findSub_some_occurs pat s j hj
  have hleast := findSub_some_least pat s j hj
  have hij : i = j := by
    by_contra hne
    rcases Nat.lt_or_ge i j with hlt | hge
    · exact hleast i hlt h.1
    · have : j < i := by omega
      exact h.2 j this hocc
  rw [hij]
  exact hj

theorem remove_at_first_adviser (s : Str) (i : Nat)
    (h : isFirstOccurrence adviserTag s i) :
    remove_role_played_responses s = (true, pyStrip (s.take i)) := by
  unfold remove_role_played_responses
  rw [findSub_eq_first adviserTag s i h]

theorem remove_at_first_advisor (s : Str) (i : Nat)
    (hna : ∀ j, ¬ occursAt adviserTag s j)
    (h : isFirstOccurrence advisorTag s i) :
    remove_role_played_responses s = (true, pyStrip (s.take i)) := by
  unfold remove_role_played_responses
  have h1 : findSub adviserTag s = none := by
    cases hf : findSub adviserTag s with
    | none => rfl
    | some j => exact absurd (findSub_some_occurs adviserTag s j hf) (hna j)
  rw [h1, findSub_eq_first advisorTag s i h]

theorem remove_no_marker (s : Str)
    (hna : ∀ j, ¬ occursAt adviserTag s j)
    (hno : ∀ j, ¬ occursAt advisorTag s j) :
    remove_role_played_responses s = (false, pyStrip s) := by
  unfold remove_role_played_responses
  have h1 : findSub adviserTag s = none := by
    cases hf : findSub adviserTag s with
    | none => rfl
    | some j => exact absurd (findSub_some_occurs adviserTag s j hf) (hna j)
  have h2 : findSub advisorTag s = none := by
    cases hf : findSub advisorTag s with
    | none => rfl
    | some j => exact absurd (findSub_some_occurs advisorTag s j hf) (hno j)
  rw [h1, h2]

theorem alook_aset_self {α : Type} (l : List (Str × α)) (k : Str) (v : α) :
    alook (aset l k v) k = some v := by
  induction l with
  | nil => simp [aset, alook]
  | cons p t ih =>
    by_cases h : p.1 = k
    · simp [aset, alook, h]
    · simp [aset, alook, h, ih]

theorem alook_aset_ne {α : Type} (l : List (Str × α)) (k k' : Str) (v : α)
    (h : k' ≠ k) : alook (aset l k v) k' = alook l k' := by
  have hk : k ≠ k' := Ne.symm h
  induction l with
  | nil => simp [aset, alook, hk]
  | cons p t ih =>
    rcases p with ⟨k0, v0⟩
    by_cases h0 : k0 = k
    · subst h0
      simp [aset, alook, hk]
    · simp [aset, alook, h0, ih]

theorem mergePair_eq (resp : List (Str × StreamVal)) (p : Str × StreamVal) :
    mergePair resp p = aset resp p.1 (mergeFieldSpec (alook resp p.1) p.2) := by
  unfold mergePair mergeFieldSpec
  rcases h : alook resp p.1 with _ | v
  · rcases p.2 <;> simp
  · rcases v <;> rcases p.2 <;> simp

theorem alook_mergePair (resp : List (Str × StreamVal)) (p : Str × StreamVal)
    (k : Str) :
    alook (mergePair resp p) k =
      if p.1 = k then some (mergeFieldSpec (alook resp k) p.2)
      else alook resp k := by
  rw [mergePair_eq]
  by_cases h : p.1 = k
  · subst h
    simp [alook_aset_self]
  · simp [h, alook_aset_ne resp p.1 k _ (fun hh => h hh.symm)]

theorem alook_mergeChunk (c : Chunk) :
    ∀ (resp : List (Str × StreamVal)) (k : Str),
    alook (mergeChunk resp c) k = specFold (alook resp k) (arrivalsIn k c) := by
  induction c with
  | nil => intro resp k; simp [mergeChunk, arrivalsIn, specFold]
  | cons p t ih =>
    intro resp k
    have hstep : mergeChunk resp (p :: t) = mergeChunk (mergePair resp p) t := rfl
    rw [hstep, ih]
    by_cases h : p.1 = k
    · simp [arrivalsIn, h, specFold, alook_mergePair]
    · simp [arrivalsIn, h, alook_mergePair]

theorem alook_wf_str : ∀ (c : Chunk), wfChunk c = true →
    ∀ v, alook c answerKey = some v → ∃ s, v = StreamVal.str s := by
  intro c
  induction c with
  | nil => intro _ v h; simp [alook] at h
  | cons p t ih =>
    intro hwf v h
    rcases p with ⟨k0, v0⟩
    have hp := List.all_eq_true.mp hwf ⟨k0, v0⟩ (List.mem_cons_self _ t)
    have ht : wfChunk t = true :=
      List.all_eq_true.mpr fun q hq =>
        List.all_eq_true.mp hwf q (List.mem_cons_of_mem _ hq)
    by_cases hk : k0 = answerKey
    · simp only [alook, if_pos hk] at h
      cases h
      rw [if_pos hk] at hp
      cases v with
      | str s => exact ⟨s, rfl⟩
      | other n => cases hp
    · simp only [alook, if_neg hk] at h
      exact ih ht v h

theorem arrivalsIn_wf_str (c : Chunk) (hwf : wfChunk c = true) :
    ∀ v ∈ arrivalsIn answerKey c, ∃ s, v = StreamVal.str s := by
  intro v hv
  rcases List.mem_map.mp hv with ⟨p, hpmem, hpv⟩
  rcases List.mem_filter.mp hpmem with ⟨hmem, hkey⟩
  have hk : p.1 = answerKey := of_decide_eq_true hkey
  have := List.all_eq_true.mp hwf p hmem
  rw [if_pos hk] at this
  cases hp2 : p.2 with
  | str s => exact ⟨s, by rw [← hpv, hp2]⟩
  | other n => rw [hp2] at this; cases this

theorem arrivalsIn_ne_nil : ∀ (c : Chunk) (v : StreamVal),
    alook c answerKey = some v → arrivalsIn answerKey c ≠ [] := by
  intro c
  induction c with
  | nil => intro v h; simp [alook] at h
  | cons p t ih =>
    intro v h
    rcases p with ⟨k0, v0⟩
    by_cases hk : k0 = answerKey
    · have hstep : arrivalsIn answerKey ((k0, v0) :: t) =
          v0 :: arrivalsIn answerKey t := by
        simp [arrivalsIn, hk]
      rw [hstep]
      exact List.cons_ne_nil v0 _
    · simp only [alook, if_neg hk] at h
      have hstep : arrivalsIn answerKey ((k0, v0) :: t) =
          arrivalsIn answerKey t := by
        simp [arrivalsIn, hk]
      rw [hstep]
      exact ih v h

theorem specFold_str : ∀ (vs : List StreamVal),
    (∀ v ∈ vs, ∃ s, v = StreamVal.str s) →
    ∀ (cur : Option StreamVal),
    (vs ≠ [] ∨ ∃ a, cur = some (StreamVal.str a)) →
    ∃ b, specFold cur vs = some (StreamVal.str b) := by
  intro vs
  induction vs with
  | nil =>
    intro _ cur hne
    rcases hne with hne | ⟨a, ha⟩
    · exact absurd rfl hne
    · exact ⟨a, by simp [specFold, ha]⟩
  | cons v vs ih =>
    intro hstr cur _
    rcases hstr v (List.mem_cons_self v vs) with ⟨b, hb⟩
    subst hb
    have hmf : ∃ x, mergeFieldSpec cur (StreamVal.str b) = StreamVal.str x := by
      cases cur with
      | none => exact ⟨b, rfl⟩
      | some w =>
        cases w with
        | str a => exact ⟨a ++ b, rfl⟩
        | other n => exact ⟨b, rfl⟩
    rcases hmf with ⟨x, hx⟩
    have := ih (fun w hw => hstr w (List.mem_cons_of_mem _ hw))
      (some (mergeFieldSpec cur (StreamVal.str b))) (Or.inr ⟨x, by rw [hx]⟩)
    simpa [specFold] using this

theorem getAnswerStr_mergeChunk (resp : List (Str × StreamVal)) (c : Chunk)
    (s : Str) (hwf : wfChunk c = true)
    (h : alook c answerKey = some (StreamVal.str s)) :
    ∃ b, getAnswerStr (mergeChunk resp c) = some b := by
  have hval := alook_mergeChunk c resp answerKey
  rcases specFold_str (arrivalsIn answerKey c) (arrivalsIn_wf_str c hwf)
      (alook resp answerKey) (Or.inl (arrivalsIn_ne_nil c _ h)) with ⟨b, hb⟩
  exact ⟨b, by rw [getAnswerStr, hval, hb]⟩

theorem runStream_stopped (st : SState)
    (h : (st.earlyStop || st.crashed) = true) :
    ∀ bs, runStream st bs = st := by
  intro bs
  cases bs with
  | nil => rfl
  | cons b bs => simp [runStream, h]

theorem runStream_append (as : List Chunk) : ∀ (st : SState) (bs : List Chunk),
    runStream st (as ++ bs) = runStream (runStream st as) bs := by
  induction as with
  | nil => intro st bs; rfl
  | cons a as ih =>
    intro st bs
    by_cases h : (st.earlyStop || st.crashed) = true
    · have h1 := runStream_stopped st h ((a :: as) ++ bs)
      have h2 := runStream_stopped st h (a :: as)
      have h3 := runStream_stopped st h bs
      rw [h1, h2, h3]
    · show runStream st (a :: (as ++ bs)) = runStream (runStream st (a :: as)) bs
      rw [runStream, if_neg h, runStream, if_neg h, ih]

theorem step_flushes_extend (st : SState) (c : Chunk) :
    ∃ M, (stepChunk st c).flushes = st.flushes ++ M := by
  rcases halook : alook c answerKey with _ | v
  · exact ⟨[], by simp [stepChunk, halook]⟩
  · cases v with
    | other n => exact ⟨[], by simp [stepChunk, halook]⟩
    | str s =>
      by_cases hlen : 75 ≤ st.buffer.length + s.length
      · rcases hcur : getAnswerStr (mergeChunk st.resp c) with _ | cur
        · exact ⟨[], by simp [stepChunk, halook, hcur, List.length_append, hlen]⟩
        · exact ⟨[⟨st.buffer ++ s, (remove_role_played_responses cur).2,
            (remove_role_played_responses cur).1⟩],
            by simp [stepChunk, halook, hcur, List.length_append, hlen]⟩
      · exact ⟨[], by simp [stepChunk, halook, List.length_append, hlen]⟩

theorem step_spans_ge (st : SState) (c : Chunk)
    (h : ∀ f ∈ st.flushes, 75 ≤ f.span.length) :
    ∀ f ∈ (stepChunk st c).flushes, 75 ≤ f.span.length := by
  rcases halook : alook c answerKey with _ | v
  · simpa [stepChunk, halook] using h
  · cases v with
    | other n => simpa [stepChunk, halook] using h
    | str s =>
      by_cases hlen : 75 ≤ st.buffer.length + s.length
      · rcases hcur : getAnswerStr (mergeChunk st.resp c) with _ | cur
        · simpa [stepChunk, halook, hcur, List.length_append, hlen] using h
        · intro f hf
          simp only [stepChunk, halook, hcur, List.length_append,
            if_pos hlen] at hf
          rw [List.mem_append] at hf
          rcases hf with hf | hf
          · exact h f hf
          · rw [List.mem_singleton] at hf
            subst hf
            simpa [List.length_append] using hlen
      · simpa [stepChunk, halook, List.length_append, hlen] using h

theorem step_buffer_lt (st : SState) (c : Chunk)
    (h : st.buffer.length < 75) : (stepChunk st c).buffer.length < 75 := by
  rcases halook : alook c answerKey with _ | v
  · simpa [stepChunk, halook] using h
  · cases v with
    | other n => simpa [stepChunk, halook] using h
    | str s =>
      by_cases hlen : 75 ≤ st.buffer.length + s.length
      · rcases hcur : getAnswerStr (mergeChunk st.resp c) with _ | cur
        · simpa [stepChunk, halook, hcur, List.length_append, hlen] using h
        · simp [stepChunk, halook, hcur, List.length_append, hlen]
      · simp only [stepChunk, halook, List.length_append, if_neg hlen]
        simpa [List.length_append] using Nat.lt_of_not_le hlen

theorem step_flush_buffer (st : SState) (c : Chunk)
    (h : (stepChunk st c).flushes ≠ st.flushes) :
    (stepChunk st c).buffer = [] := by
  rcases halook : alook c answerKey with _ | v
  · exact absurd (by simp [stepChunk, halook]) h
  · cases v with
    | other n => exact absurd (by simp [stepChunk, halook]) h
    | str s =>
      by_cases hlen : 75 ≤ st.buffer.length + s.length
      · rcases hcur : getAnswerStr (mergeChunk st.resp c) with _ | cur
        · exact absurd (by simp [stepChunk, halook, hcur, List.length_append, hlen]) h
        · simp [stepChunk, halook, hcur, List.length_append, hlen]
      · exact absurd (by simp [stepChunk, halook, List.length_append, hlen]) h

theorem run_flushes_extend : ∀ (cs : List Chunk) (st : SState),
    ∃ L, (runStream st cs).flushes = st.flushes ++ L := by
  intro cs
  induction cs with
  | nil => intro st; exact ⟨[], by simp [runStream]⟩
  | cons c cs ih =>
    intro st
    by_cases h : (st.earlyStop || st.crashed) = true
    · exact ⟨[], by rw [runStream_stopped st h]; simp⟩
    · rcases ih (stepChunk st c) with ⟨L, hL⟩
      rcases step_flushes_extend st c with ⟨M, hM⟩
      refine ⟨M ++ L, ?_⟩
      rw [runStream, if_neg h, hL, hM, List.append_assoc]

theorem run_spans_ge : ∀ (cs : List Chunk) (st : SState),
    (∀ f ∈ st.flushes, 75 ≤ f.span.length) →
    ∀ f ∈ (runStream st cs).flushes, 75 ≤ f.span.length := by
  intro cs
  induction cs with
  | nil => intro st h; simpa [runStream] using h
  | cons c cs ih =>
    intro st h
    by_cases hs : (st.earlyStop || st.crashed) = true
    · rw [runStream_stopped st hs]; exact h
    · rw [runStream, if_neg hs]
      exact ih (stepChunk st c) (step_spans_ge st c h)

theorem run_buffer_lt : ∀ (cs : List Chunk) (st : SState),
    st.buffer.length < 75 → (runStream st cs).buffer.length < 75 := by
  intro cs
  induction cs with
  | nil => intro st h; simpa [runStream] using h
  | cons c cs ih =>
    intro st h
    by_cases hs : (st.earlyStop || st.crashed) = true
    · rw [runStream_stopped st hs]; exact h
    · rw [runStream, if_neg hs]
      exact ih (stepChunk st c) (step_buffer_lt st c h)

theorem run_conserve : ∀ (cs : List Chunk) (st : SState),
    (∀ c ∈ cs, wfChunk c = true) →
    (∀ f ∈ (runStream st cs).flushes, f.early = false) →
    st.earlyStop = false → st.crashed = false →
    spansJoin (runStream st cs) ++ (runStream st cs).buffer =
      spansJoin st ++ (st.buffer ++ concatAnswers cs) := by
  intro cs
  induction cs with
  | nil => intro st _ _ _ _; simp [runStream, concatAnswers]
  | cons c cs ih =>
    intro st hwf hne hes hcr
    have hguard : ¬ ((st.earlyStop || st.crashed) = true) := by
      rw [hes, hcr]; simp
    have hrun : runStream st (c :: cs) = runStream (stepChunk st c) cs := by
      rw [runStream, if_neg hguard]
    rw [hrun] at hne ⊢
    have hwfc := hwf c (List.mem_cons_self c cs)
    have hwft : ∀ x ∈ cs, wfChunk x = true :=
      fun x hx => hwf x (List.mem_cons_of_mem c hx)
    rcases halook : alook c answerKey with _ | v
    · have hst1 : stepChunk st c = { st with resp := mergeChunk st.resp c } := by
        simp [stepChunk, halook]
      rw [hst1] at hne ⊢
      have ih1 := ih { st with resp := mergeChunk st.resp c } hwft hne hes hcr
      rw [ih1]
      simp [spansJoin, concatAnswers, answerTextOf, halook]
    · cases v with
      | other n =>
        rcases alook_wf_str c hwfc _ halook with ⟨s, hs⟩
        cases hs
      | str s =>
        by_cases hlen : 75 ≤ st.buffer.length + s.length
        · rcases getAnswerStr_mergeChunk st.resp c s hwfc halook with ⟨cur, hcur⟩
          have hst1 : stepChunk st c =
              { resp := aset (mergeChunk st.resp c) answerKey
                  (StreamVal.str (remove_role_played_responses cur).2)
                buffer := []
                started := true
                initialPost :=
                  if st.started then st.initialPost
                  else getAnswerStr (mergeChunk st.resp c)
                flushes := st.flushes ++
                  [⟨st.buffer ++ s, (remove_role_played_responses cur).2,
                    (remove_role_played_responses cur).1⟩]
                earlyStop := (remove_role_played_responses cur).1
                crashed := st.crashed } := by
            simp [stepChunk, halook, hcur, List.length_append, hlen]
          have hmem0 : (⟨st.buffer ++ s, (remove_role_played_responses cur).2,
              (remove_role_played_responses cur).1⟩ : Flush) ∈
              (runStream (stepChunk st c) cs).flushes := by
            rcases run_flushes_extend cs (stepChunk st c) with ⟨L, hL⟩
            rw [hL, hst1]
            simp
          have hearly : (remove_role_played_responses cur).1 = false :=
            hne _ hmem0
          have hes1 : (stepChunk st c).earlyStop = false := by
            rw [hst1]; exact hearly
          have hcr1 : (stepChunk st c).crashed = false := by
            rw [hst1]; exact hcr
          have ih1 := ih (stepChunk st c) hwft hne hes1 hcr1
          rw [ih1, hst1]
          simp [spansJoin, concatAnswers, answerTextOf, halook,
            List.append_assoc]
        · have hst1 : stepChunk st c =
              { st with resp := mergeChunk st.resp c,
                        buffer := st.buffer ++ s,
                        started := true,
                        initialPost :=
                          if st.started then st.initialPost
                          else getAnswerStr (mergeChunk st.resp c) } := by
            simp [stepChunk, halook, List.length_append, hlen]
          have hes1 : (stepChunk st c).earlyStop = false := by
            rw [hst1]; exact hes
          have hcr1 : (stepChunk st c).crashed = false := by
            rw [hst1]; exact hcr
          have ih1 := ih (stepChunk st c) hwft hne hes1 hcr1
          rw [ih1, hst1]
          simp [spansJoin, concatAnswers, answerTextOf, halook,
            List.append_assoc]

theorem specFold_append : ∀ (xs ys : List StreamVal) (cur : Option StreamVal),
    specFold cur (xs ++ ys) = specFold (specFold cur xs) ys := by
  intro xs
  induction xs with
  | nil => intro ys cur; rfl
  | cons x xs ih =>
    intro ys cur
    show specFold (some (mergeFieldSpec cur x)) (xs ++ ys) =
      specFold (specFold (some (mergeFieldSpec cur x)) xs) ys
    exact ih ys (some (mergeFieldSpec cur x))

theorem foldl_mergeChunk_alook : ∀ (frags : List Chunk)
    (resp : List (Str × StreamVal)) (k : Str),
    alook (frags.foldl mergeChunk resp) k =
      specFold (alook resp k) (arrivalsOf k frags) := by
  intro frags
  induction frags with
  | nil => intro resp k; simp [arrivalsOf, specFold]
  | cons c fr ih =>
    intro resp k
    have harr : arrivalsOf k (c :: fr) = arrivalsIn k c ++ arrivalsOf k fr := by
      simp [arrivalsOf]
    rw [List.foldl_cons, ih, harr, specFold_append, alook_mergeChunk]

/-- C1 (claim as frozen, refuted): the accumulated answer `c1acc` contains
both markers, the first one (`"Advisor: "`) starts at index 13, yet the
finalized answer is not the text strictly before that first marker — the code
gives `"Adviser: "` precedence over an earlier `"Advisor: "` and strips
whitespace, producing `"Hello there. Advisor: x"` instead of
`"Hello there. "`. -/
theorem claim_C1_counterexample :
    aggregateAnswer c1frags = some c1acc ∧
    (occursAt advisorTag c1acc 13 ∧
      ∀ j, j < 13 → ¬ (occursAt adviserTag c1acc j ∨ occursAt advisorTag c1acc j)) ∧
    finalAnswer c1frags ≠ some (c1acc.take 13) := by
  refine ⟨by decide, ⟨by decide, by decide⟩, by decide⟩

/-- C1 (amended): for every fragment sequence, writing `acc` for the
accumulated answer reaching finalization, the finalized answer equals the
whitespace-stripped text strictly before the first occurrence of
`"Adviser: "` when that marker occurs, and otherwise the whitespace-stripped
text strictly before the first occurrence of `"Advisor: "`; this is
determined by `acc` alone, regardless of how many fragments the text was
split across. -/
theorem claim_C1 (frags : List Chunk) (acc : Str)
    (h : aggregateAnswer frags = some acc) :
    (∀ i, isFirstOccurrence adviserTag acc i →
      finalAnswer frags = some (pyStrip (acc.take i))) ∧
    ((∀ j, ¬ occursAt adviserTag acc j) →
      ∀ i, isFirstOccurrence advisorTag acc i →
      finalAnswer frags = some (pyStrip (acc.take i))) := by
  constructor
  · intro i hi
    rw [finalAnswer, h, Option.map_some', remove_at_first_adviser acc i hi]
  · intro hna i hi
    rw [finalAnswer, h, Option.map_some', remove_at_first_advisor acc i hna hi]

/-- C1 witness: on the concrete stream `c1frags` the first `"Adviser: "`
occurrence is at index 24 and the finalized answer is the stripped prefix
before it. -/
theorem claim_C1_witness :
    finalAnswer c1frags = some (pyStrip (c1acc.take 24)) :=
  (claim_C1 c1frags c1acc (by decide)).1 24 (by decide)

/-- C3: for every fragment sequence whose answer text only ever grows (no
truncation event fires during the run, i.e. every flush reports
`early = false`) and whose fragments are well formed: (1) every interim flush
is triggered by a buffer of at least 75 characters; (2) after every consumed
prefix the unflushed buffer holds fewer than 75 characters (so a buffer that
reaches 75 is always flushed at that fragment boundary); (3) whenever a step
emits a flush the buffer is reset to empty; (4) the flushed spans followed by
the final buffer partition the concatenated answer text, so no two flushes
cover the same buffered span. -/
theorem claim_C3 (frags : List Chunk)
    (hwf : ∀ c ∈ frags, wfChunk c = true)
    (hmono : ∀ f ∈ (runStream initS frags).flushes, f.early = false) :
    (∀ f ∈ (runStream initS frags).flushes, 75 ≤ f.span.length) ∧
    (∀ k, ((runStream initS (frags.take k)).buffer).length < 75) ∧
    (∀ k, (runStream initS (frags.take (k + 1))).flushes ≠
        (runStream initS (frags.take k)).flushes →
      (runStream initS (frags.take (k + 1))).buffer = []) ∧
    spansJoin (runStream initS frags) ++ (runStream initS frags).buffer =
      concatAnswers frags := by
  refine ⟨run_spans_ge frags initS (by simp [initS]),
          fun k => run_buffer_lt (frags.take k) initS (by simp [initS]),
          ?_, ?_⟩
  · intro k hk
    rw [List.take_succ, runStream_append] at hk ⊢
    cases hg : frags[k]? with
    | none =>
      rw [hg] at hk
      exact absurd rfl hk
    | some c =>
      rw [hg] at hk
      by_cases hs : ((runStream initS (frags.take k)).earlyStop ||
          (runStream initS (frags.take k)).crashed) = true
      · rw [runStream_stopped _ hs] at hk
        exact absurd rfl hk
      · have hone : runStream (runStream initS (frags.take k)) (some c).toList =
            stepChunk (runStream initS (frags.take k)) c := by
          show runStream (runStream initS (frags.take k)) [c] = _
          rw [runStream, if_neg hs]
          rfl
        rw [hone] at hk ⊢
        exact step_flush_buffer _ c hk
  · have := run_conserve frags initS hwf hmono rfl rfl
    simpa [initS, spansJoin] using this

/-- C3 witness: on `c3frags` the flushed spans followed by the final buffer
are exactly the concatenated answer text. -/
theorem claim_C3_witness :
    spansJoin (runStream initS c3frags) ++ (runStream initS c3frags).buffer =
      concatAnswers c3frags :=
  (claim_C3 c3frags (by decide) (by decide)).2.2.2

/-- C7: for every fragment sequence and every named output field, the
aggregator's cumulative response holds, at that field, exactly the left fold
of the merge rule (concatenate when both the accumulated value and the
arriving value are strings, otherwise overwrite with the latest value) over
the values that arrived for that field, in arrival order. -/
theorem claim_C7 (frags : List Chunk) (k : Str) :
    alook (mergeChunks frags) k = specFold none (arrivalsOf k frags) := by
  have := foldl_mergeChunk_alook frags [] k
  simpa [mergeChunks, alook] using this

/-- C10: `remove_role_played_responses` returns `(true, p)` with `p` the
whitespace-stripped prefix strictly before the first `"Adviser: "` when that
marker occurs; otherwise `(true, p)` with `p` the stripped prefix before the
first `"Advisor: "` when that one occurs; otherwise `(false, s stripped)` —
so `"Adviser: "` takes precedence even over an earlier `"Advisor: "`, and the
returned text is stripped also when no marker is present; the flag is `true`
exactly when a marker occurs. -/
theorem claim_C10 (s : Str) :
    (∀ i, isFirstOccurrence adviserTag s i →
      remove_role_played_responses s = (true, pyStrip (s.take i))) ∧
    ((∀ j, ¬ occursAt adviserTag s j) →
      ∀ i, isFirstOccurrence advisorTag s i →
      remove_role_played_responses s = (true, pyStrip (s.take i))) ∧
    ((∀ j, ¬ occursAt adviserTag s j) → (∀ j, ¬ occursAt advisorTag s j) →
      remove_role_played_responses s = (false, pyStrip s)) ∧
    ((remove_role_played_responses s).1 = true ↔
      (∃ i, occursAt adviserTag s i) ∨ (∃ i, occursAt advisorTag s i)) := by
  refine ⟨remove_at_first_adviser s,
    fun hna i hi => remove_at_first_advisor s i hna hi,
    remove_no_marker s, ?_⟩
  unfold remove_role_played_responses
  cases h1 : findSub adviserTag s with
  | some i =>
    simp only [true_iff]
    exact Or.inl ⟨i, findSub_some_occurs adviserTag s i h1⟩
  | none =>
    cases h2 : findSub advisorTag s with
    | some i =>
      simp only [true_iff]
      exact Or.inr ⟨i, findSub_some_occurs advisorTag s i h2⟩
    | none =>
      simp only [Bool.false_eq_true, false_iff]
      rintro (⟨i, hi⟩ | ⟨i, hi⟩)
      · exact findSub_none_no_occ adviserTag s h1 i hi
      · exact findSub_none_no_occ advisorTag s h2 i hi

/-- C10 witness at a concrete input. -/
theorem claim_C10_witness :
    remove_role_played_responses c10s = (true, pyStrip (c10s.take 2)) :=
  (claim_C10 c10s).1 2 (by decide)

/-- C2: for a stream factory failing on attempts 1-3 (0-based 0-2) and
succeeding on attempt 4 (0-based 3), the loop performs exactly the three
backoff waits `(before attempt 2, 0)`, `(before attempt 3, 1)`,
`(before attempt 4, 4)`, shows three retry notices and no failure notice,
and returns attempt 4's answer; for a factory failing all four attempts it
raises the fatal error and shows the terminal failure notice on the
user-facing and supervisor-facing surfaces exactly once each. -/
theorem claim_C2 (f : Nat → GenOutcome) (a : Str) :
    ((∀ i, i < 3 → f i = GenOutcome.raised) → f 3 = GenOutcome.done a →
      send_llm_retry f =
        (RetryOutcome.answer a, ⟨[(2, 0), (3, 1), (4, 4)], 3, 0, 0⟩)) ∧
    ((∀ i, i < 4 → f i = GenOutcome.raised) →
      send_llm_retry f =
        (RetryOutcome.fatal, ⟨[(2, 0), (3, 1), (4, 4)], 3, 1, 1⟩)) := by
  constructor
  · intro h3 h4
    have h0 := h3 0 (by omega)
    have h1 := h3 1 (by omega)
    have h2 := h3 2 (by omega)
    simp [send_llm_retry, retryLoop, h0, h1, h2, h4]
  · intro h
    have h0 := h 0 (by omega)
    have h1 := h 1 (by omega)
    have h2 := h 2 (by omega)
    have h3 := h 3 (by omega)
    simp [send_llm_retry, retryLoop, h0, h1, h2, h3]

/-- C2 witness at two concrete stream factories. -/
theorem claim_C2_witness :
    send_llm_retry retryF0 =
      (RetryOutcome.answer ("done".toList), ⟨[(2, 0), (3, 1), (4, 4)], 3, 0, 0⟩) ∧
    send_llm_retry retryG0 =
      (RetryOutcome.fatal, ⟨[(2, 0), (3, 1), (4, 4)], 3, 1, 1⟩) :=
  ⟨(claim_C2 retryF0 ("done".toList)).1
      (by intro i hi; interval_cases i <;> rfl) rfl,
    (claim_C2 retryG0 []).2 (fun i _ => rfl)⟩

/-- C4 (amended): for every inbound message from a sender whose user record
has `activeCall = true`, on a thread whose evaluation record carries a
survey response, `handle_message` returns the survey-already-complete
decision: the user is notified, the store is left unchanged (no message
stored) and the only effect is that notification (in particular no answer
generation is invoked). -/
theorem claim_C4 (db : CaddyDB) (m : CaddyMessage) (fresh : ModValues)
    (call_start_time : Str) (ur : UserRec) (er : EvalRec)
    (h1 : alook db.users m.user = some ur) (h2 : ur.activeCall = true)
    (h3 : alook db.evals m.thread_id = some er)
    (h4 : er.surveyResponse.isSome = true) :
    handle_message db m fresh call_start_time =
      ⟨Decision.surveyComplete, db,
        [UEffect.notifySurveyDone m.space_id m.message_id]⟩ := by
  unfold handle_message check_existing_call
  rw [h1]
  simp [h2, h3, h4]

/-- C4 witness at a concrete store. -/
theorem claim_C4_witness :
    handle_message c4db c4m c4fresh [] =
      ⟨Decision.surveyComplete, c4db,
        [UEffect.notifySurveyDone c4m.space_id c4m.message_id]⟩ :=
  claim_C4 c4db c4m c4fresh [] c4ur c4er (by decide) rfl (by decide) rfl

/-- C4 (claim as frozen, refuted): a message on a thread whose
EvaluationRecord carries a survey response is answered anyway when the
sender's `activeCall` flag is false — `check_existing_call` then opens a
fresh call, overwriting the surveyed record, the message is stored, and
answer generation is invoked instead of the survey-already-complete
short-circuit. -/
theorem claim_C4_counterexample :
    alook c4xdb.evals c4m.thread_id = some c4er ∧
    c4er.surveyResponse.isSome = true ∧
    (handle_message c4xdb c4m c4fresh []).decision ≠
      Decision.surveyComplete ∧
    UEffect.invokeLlm c4m.thread_id ∈
      (handle_message c4xdb c4m c4fresh []).effects ∧
    (handle_message c4xdb c4m c4fresh []).db.messages ≠ c4xdb.messages := by
  refine ⟨by decide, by decide, by decide, by decide, by decide⟩

/-- C8: whenever the resolved module configuration lets the conversation
continue (`continueConversation = true`, survey not complete) but some
module output signals `end_interaction`, `handle_message` stores the message
and stops silently: the decision is `endInteraction`, the stored messages
grow by exactly the formatted message, and the effect list is empty — no
user notification and no answer generation. -/
theorem claim_C8 (db : CaddyDB) (m : CaddyMessage) (fresh : ModValues)
    (call_start_time : Str)
    (h1 : (check_existing_call db m fresh call_start_time).survey = false)
    (h2 : (check_existing_call db m fresh call_start_time).mv.continueConversation
      = true)
    (h3 : anyEndInteraction
      (check_existing_call db m fresh call_start_time).mv.moduleOutputs = true) :
    handle_message db m fresh call_start_time =
      ⟨Decision.endInteraction,
        { (check_existing_call db m fresh call_start_time).db with
          messages := (check_existing_call db m fresh call_start_time).db.messages
            ++ [format_chat_message m] }, []⟩ := by
  unfold handle_message
  simp [h1, h2, h3]

/-- C8 witness: on the empty store the message opens a fresh call with
configuration `c8fresh`, is stored, and processing ends silently. -/
theorem claim_C8_witness :
    handle_message emptyDB c4m c8fresh [] =
      ⟨Decision.endInteraction,
        { (check_existing_call emptyDB c4m c8fresh []).db with
          messages := (check_existing_call emptyDB c4m c8fresh []).db.messages
            ++ [format_chat_message c4m] }, []⟩ :=
  claim_C8 emptyDB c4m c8fresh [] (by decide) (by decide) (by decide)

/-- C9: when the sender's user record has `activeCall = true` but the
evaluation table holds no record for the message's thread,
`check_existing_call` returns the module configuration cached on the user
record with `survey_complete = false` and leaves the store unchanged — in
particular no new evaluation record is created for that thread. -/
theorem claim_C9 (db : CaddyDB) (m : CaddyMessage) (fresh : ModValues)
    (call_start_time : Str) (ur : UserRec)
    (h1 : alook db.users m.user = some ur) (h2 : ur.activeCall = true)
    (h3 : alook db.evals m.thread_id = none) :
    check_existing_call db m fresh call_start_time = ⟨mvOfUser ur, false, db⟩ := by
  unfold check_existing_call
  rw [h1]
  simp [h2, h3]

/-- C9 witness at a concrete store. -/
theorem claim_C9_witness :
    check_existing_call c9db c9m c4fresh [] = ⟨mvOfUser c9ur, false, c9db⟩ :=
  claim_C9 c9db c9m c4fresh [] c9ur (by decide) rfl (by decide)

theorem InvDB_atMostOne (db : CaddyDB) (h : InvDB db) (u : Str) :
    atMostOneActive db u := by
  intro t1 t2 er1 er2 h1 h2 ho1 ho2 hc1 hc2
  rcases h t1 er1 h1 hc1 with ⟨ur1, hu1, _, ht1⟩
  rcases h t2 er2 h2 hc2 with ⟨ur2, hu2, _, ht2⟩
  rw [ho1] at hu1
  rw [ho2] at hu2
  rw [hu1] at hu2
  cases hu2
  rw [← ht1, ← ht2]

theorem length_le_one_of_pairwise_eq {α : Type} (l : List α) (hnd : l.Nodup)
    (h : ∀ a ∈ l, ∀ b ∈ l, a = b) : l.length ≤ 1 := by
  cases l with
  | nil => simp
  | cons x t =>
    cases t with
    | nil => simp
    | cons y r =>
      exfalso
      have hxy : x = y := h x (by simp) y (by simp)
      rcases List.nodup_cons.mp hnd with ⟨hx, _⟩
      exact hx (by rw [hxy]; simp)

theorem atMostOne_count (db : CaddyDB) (u : Str)
    (h : atMostOneActive db u) : ownedIncompleteCount db u ≤ 1 := by
  unfold ownedIncompleteCount
  refine length_le_one_of_pairwise_eq _ ((List.nodup_dedup _).filter _) ?_
  intro a ha b hb
  rcases List.mem_filter.mp ha with ⟨_, hpa⟩
  rcases List.mem_filter.mp hb with ⟨_, hpb⟩
  rcases hea : alook db.evals a with _ | era
  · rw [hea] at hpa; cases hpa
  rcases heb : alook db.evals b with _ | erb
  · rw [heb] at hpb; cases hpb
  rw [hea] at hpa
  rw [heb] at hpb
  rcases Bool.and_eq_true_iff.mp hpa with ⟨hoa, hca⟩
  rcases Bool.and_eq_true_iff.mp hpb with ⟨hob, hcb⟩
  have hca' : era.callComplete = false := by simpa using hca
  have hcb' : erb.callComplete = false := by simpa using hcb
  exact h a b era erb hea heb (of_decide_eq_true hoa) (of_decide_eq_true hob)
    hca' hcb'

theorem InvDB_of_eq (db1 db2 : CaddyDB) (he : db1.evals = db2.evals)
    (hu : db1.users = db2.users) (h : InvDB db2) : InvDB db1 := by
  intro t er h1 h2
  rw [he] at h1
  rw [hu]
  exact h t er h1 h2

theorem handle_message_evals (db : CaddyDB) (m : CaddyMessage)
    (fresh : ModValues) (cst : Str) :
    (handle_message db m fresh cst).db.evals =
      (check_existing_call db m fresh cst).db.evals ∧
    (handle_message db m fresh cst).db.users =
      (check_existing_call db m fresh cst).db.users := by
  unfold handle_message
  by_cases h1 : (check_existing_call db m fresh cst).survey
  · simp [h1]
  · by_cases h2 :
      (check_existing_call db m fresh cst).mv.continueConversation = false
    · simp [h1, h2]
    · by_cases h3 : anyEndInteraction
        (check_existing_call db m fresh cst).mv.moduleOutputs
      · simp [h1, h2, h3]
      · simp [h1, h2, h3]

theorem check_existing_call_db (db : CaddyDB) (m : CaddyMessage)
    (fresh : ModValues) (cst : Str) :
    (check_existing_call db m fresh cst).db = db ∨
    ((match alook db.users m.user with
      | some ur => ur.activeCall = false
      | none => True) ∧
      (check_existing_call db m fresh cst).db =
        store_evaluation_module db m.user m.thread_id fresh cst) := by
  unfold check_existing_call
  rcases hu : alook db.users m.user with _ | ur
  · exact Or.inr ⟨trivial, rfl⟩
  · by_cases ha : ur.activeCall
    · rcases he : alook db.evals m.thread_id with _ | er
      · exact Or.inl (by simp [ha, he])
      · exact Or.inl (by simp [ha, he])
    · right
      constructor
      · show ur.activeCall = false
        simpa using ha
      · simp [ha]

theorem inv_store_evaluation (db : CaddyDB) (u t : Str) (fresh : ModValues)
    (cst : Str) (h : InvDB db)
    (hinact : match alook db.users u with
      | some ur => ur.activeCall = false
      | none => True) :
    InvDB (store_evaluation_module db u t fresh cst) := by
  intro t' er' h1 h2
  unfold store_evaluation_module at h1 ⊢
  by_cases ht : t' = t
  · subst ht
    rw [alook_aset_self] at h1
    cases h1
    exact ⟨_, alook_aset_self _ _ _, rfl, rfl⟩
  · rw [alook_aset_ne _ _ _ _ ht] at h1
    rcases h t' er' h1 h2 with ⟨ur, hu, ha, hatid⟩
    by_cases ho : er'.owner = u
    · rw [ho] at hu
      rw [hu] at hinact
      simp only [] at hinact
      rw [hinact] at ha
      cases ha
    · refine ⟨ur, ?_, ha, hatid⟩
      rw [alook_aset_ne _ _ _ _ ho]
      exact hu

theorem inv_step_message (db : CaddyDB) (m : CaddyMessage)
    (fresh : ModValues) (cst : Str) (h : InvDB db) :
    InvDB (stepOp db (CallOp.message m fresh cst)) := by
  have hev := handle_message_evals db m fresh cst
  refine InvDB_of_eq _ _ hev.1 hev.2 ?_
  rcases check_existing_call_db db m fresh cst with hc | ⟨hinact, hc⟩
  · rw [hc]; exact h
  · rw [hc]
    exact inv_store_evaluation db m.user m.thread_id fresh cst h hinact


theorem inv_mark_aux (db : CaddyDB) (u t : Str) (h : InvDB db)
    (hok2 : ∀ ur1, alook db.users u = some ur1 → ur1.activeCall = true →
      ur1.activeThreadId = t)
    (uX : UserRec) (eY : EvalRec)
    (heY : eY.callComplete = true) :
    InvDB ⟨aset db.users u uX, aset db.evals t eY, db.messages⟩ := by
  intro t' er' h1 h2
  dsimp only at h1 ⊢
  by_cases ht : t' = t
  · subst ht
    rw [alook_aset_self] at h1
    cases h1
    rw [heY] at h2
    cases h2
  · rw [alook_aset_ne _ _ _ _ ht] at h1
    rcases h t' er' h1 h2 with ⟨ur, hu, ha, hatid⟩
    by_cases ho : er'.owner = u
    · exfalso
      rw [ho] at hu
      have := hok2 ur hu ha
      rw [hatid] at this
      exact ht this
    · refine ⟨ur, ?_, ha, hatid⟩
      rw [alook_aset_ne _ _ _ _ ho]
      exact hu

theorem inv_step_complete (db : CaddyDB) (u t : Str) (h : InvDB db)
    (hok : okOp db (CallOp.complete u t) = true) :
    InvDB (mark_call_complete db u t) := by
  have hok2 : ∀ ur1, alook db.users u = some ur1 → ur1.activeCall = true →
      ur1.activeThreadId = t := by
    intro ur1 hl ha
    simp only [okOp, hl, ha, if_true] at hok
    exact of_decide_eq_true hok
  rcases he0 : alook db.evals t with _ | er0 <;>
    rcases hu0 : alook db.users u with _ | ur0
  · have hmc : mark_call_complete db u t =
        ⟨aset db.users u ⟨false, [], [], 0, [], true, []⟩,
          aset db.evals t ⟨[], [], 0, [], true, [], true, none⟩,
          db.messages⟩ := by
      simp [mark_call_complete, he0, hu0]
    rw [hmc]
    exact inv_mark_aux db u t h hok2 _ _ rfl
  · have hmc : mark_call_complete db u t =
        ⟨aset db.users u { ur0 with activeCall := false },
          aset db.evals t ⟨[], [], 0, [], true, [], true, none⟩,
          db.messages⟩ := by
      simp [mark_call_complete, he0, hu0]
    rw [hmc]
    exact inv_mark_aux db u t h hok2 _ _ rfl
  · have hmc : mark_call_complete db u t =
        ⟨aset db.users u ⟨false, [], [], 0, [], true, []⟩,
          aset db.evals t { er0 with callComplete := true },
          db.messages⟩ := by
      simp [mark_call_complete, he0, hu0]
    rw [hmc]
    exact inv_mark_aux db u t h hok2 _ _ rfl
  · have hmc : mark_call_complete db u t =
        ⟨aset db.users u { ur0 with activeCall := false },
          aset db.evals t { er0 with callComplete := true },
          db.messages⟩ := by
      simp [mark_call_complete, he0, hu0]
    rw [hmc]
    exact inv_mark_aux db u t h hok2 _ _ rfl

theorem inv_runOps : ∀ (ops : List CallOp) (db : CaddyDB), InvDB db →
    validOps db ops = true → InvDB (runOps db ops) := by
  intro ops
  induction ops with
  | nil => intro db h _; simpa [runOps] using h
  | cons op rest ih =>
    intro db h hv
    have hv' : okOp db op = true ∧ validOps (stepOp db op) rest = true := by
      simpa [validOps] using hv
    have hstep : InvDB (stepOp db op) := by
      cases op with
      | message m fresh cst => exact inv_step_message db m fresh cst h
      | complete u t => exact inv_step_complete db u t h hv'.1
    exact ih (stepOp db op) hstep hv'.2

/-- C5 (amended): provided every call-completion event from a user with an
active call targets that user's active thread, then starting from any store
satisfying the session invariant, after any sequence of messages and
call-completion events at most one thread carries an EvaluationRecord with
`callComplete = false` created by a given user; unconditionally, a new
EvaluationRecord is only created when the sender has no active call (an
active sender leaves the evaluation table unchanged), and marking a call
complete sets `callComplete = true` on the thread's record and
`activeCall = false` on the user record together. -/
theorem claim_C5 :
    (∀ (db : CaddyDB) (ops : List CallOp) (u : Str), InvDB db →
      validOps db ops = true →
      ownedIncompleteCount (runOps db ops) u ≤ 1) ∧
    (∀ (db : CaddyDB) (m : CaddyMessage) (fresh : ModValues) (cst : Str)
      (ur : UserRec), alook db.users m.user = some ur →
      ur.activeCall = true →
      (handle_message db m fresh cst).db.evals = db.evals) ∧
    (∀ (db : CaddyDB) (u t : Str),
      (∀ er, alook (mark_call_complete db u t).evals t = some er →
        er.callComplete = true) ∧
      (∀ ur, alook (mark_call_complete db u t).users u = some ur →
        ur.activeCall = false)) := by
  refine ⟨?_, ?_, ?_⟩
  · intro db ops u hinv hval
    exact atMostOne_count _ u
      (InvDB_atMostOne _ (inv_runOps ops db hinv hval) u)
  · intro db m fresh cst ur h1 h2
    have hc : (check_existing_call db m fresh cst).db = db := by
      unfold check_existing_call
      rw [h1]
      rcases he : alook db.evals m.thread_id with _ | er <;> simp [h2, he]
    rw [(handle_message_evals db m fresh cst).1, hc]
  · intro db u t
    constructor
    · intro er her
      unfold mark_call_complete at her
      rcases he0 : alook db.evals t with _ | er0
      · rw [he0] at her
        rw [alook_aset_self] at her
        cases her
        rfl
      · rw [he0] at her
        rw [alook_aset_self] at her
        cases her
        rfl
    · intro ur hur
      unfold mark_call_complete at hur
      rcases hu0 : alook db.users u with _ | ur0
      · rw [hu0] at hur
        rw [alook_aset_self] at hur
        cases hur
        rfl
      · rw [hu0] at hur
        rw [alook_aset_self] at hur
        cases hur
        rfl

/-- C5 witness: the well-targeted sequence keeps at most one incomplete
record for `"u"`; an active sender's message leaves the evaluation table
unchanged; completing a call sets `callComplete` on its record. -/
theorem claim_C5_witness :
    ownedIncompleteCount (runOps emptyDB c5wops) ("u".toList) ≤ 1 ∧
    (handle_message c9db c9m c4fresh []).db.evals = c9db.evals ∧
    ({ c4er with callComplete := true } : EvalRec).callComplete = true :=
  ⟨claim_C5.1 emptyDB c5wops ("u".toList)
      (by intro t er hl _; simp [emptyDB, alook] at hl)
      (by decide),
    claim_C5.2.1 c9db c9m c4fresh [] c9ur (by decide) rfl,
    (claim_C5.2.2 c4db ("u".toList) ("t1".toList)).1
      { c4er with callComplete := true } (by decide)⟩

/-- C5 (claim as frozen, refuted): after the stale-card sequence — every step
of which the code accepts — two threads (`"tB"` and `"tC"`) simultaneously
carry EvaluationRecords with `callComplete = false` created by user `"u"`'s
messages, because `mark_call_complete` deactivates the session whatever
thread the clicked card names. -/
theorem claim_C5_counterexample :
    ownedIncompleteCount (runOps emptyDB c5xops) ("u".toList) = 2 := by
  decide

/-- C6: every supervisor approval records `approverEmail`,
`approved = true`, `approvalTimestamp` and `userResponseTimestamp` on the
answer record keyed by the thread; the supervisor's view is updated to the
supervision card with its decision buttons replaced by an approved marker
naming the approver; the approved artifact decorated with that marker is
delivered to the end-user surface; and the very last step, taken
unconditionally, is the call-completion confirmation. -/
theorem claim_C6 (e : ChatApprovalInput) (now : Str)
    (db : List (Str × RespRec)) :
    (∃ r, alook (handle_supervisor_approval e now db).2 e.threadId = some r ∧
      r.approverEmail = some e.approver ∧
      r.approved = some true ∧
      r.approvalTimestamp = some e.eventTime ∧
      r.userResponseTimestamp = some now) ∧
    ChatEffect.updateSupervisor e.supervisorSpace e.messageName
        (e.supervisorCard.dropLast ++ [CardSection.approvalWidget e.approver])
      ∈ (handle_supervisor_approval e now db).1 ∧
    ChatEffect.updateAdviserDynamic e.conversationId e.userMessageId
        (e.aiResponse ++ [CardSection.approvalWidget e.approver])
      ∈ (handle_supervisor_approval e now db).1 ∧
    (handle_supervisor_approval e now db).1.getLast? =
      some (ChatEffect.callCompleteConfirmation e.userEmail e.conversationId
        e.threadId) := by
  have heff : (handle_supervisor_approval e now db).1 =
      [ ChatEffect.updateSupervisor e.supervisorSpace e.messageName
          (e.supervisorCard.dropLast ++ [CardSection.approvalWidget e.approver]),
        ChatEffect.updateSupervisor e.supervisorSpace e.newRequestId
          e.requestApproved,
        ChatEffect.updateAdviserDynamic e.conversationId e.userMessageId
          (e.aiResponse ++ [CardSection.approvalWidget e.approver]),
        ChatEffect.callCompleteConfirmation e.userEmail e.conversationId
          e.threadId ] := rfl
  refine ⟨⟨_, alook_aset_self _ _ _, rfl, rfl, rfl, rfl⟩, ?_, ?_, ?_⟩
  · rw [heff]; exact List.mem_cons_self _ _
  · rw [heff]
    exact List.mem_cons_of_mem _ (List.mem_cons_of_mem _
      (List.mem_cons_self _ _))
  · rw [heff]; rfl
